import Mathlib

/-!
Verification development for the diary store of src/Enhanced Training/script.js.

Shallow embedding conventions:
* A diary entry is the record literal pushed by the submit handler
  (lines 116-121): fields id, date, focus, text, all strings.
* The browser localStorage cell under the fixed diary key is modelled as
  Option Raw: none is an absent key (getItem returns null); Raw.notJson s is
  a stored string s that JSON.parse rejects; Raw.isJson j is a stored string
  that JSON.parse accepts, abstracted to the JSON structure j it parses to.
  JSON.stringify of an entry array produces a non-empty valid JSON text that
  parses back to the same structure, so saveDiaryEntries stores Raw.isJson of
  the encoded array.
* DOM output of renderDiary is modelled as a DiaryView: the fixed empty-state
  placeholder li, or the list of rendered entry lis in display order.  The
  locale-formatted date label toLocaleDateString is abstracted to the
  underlying date string (the claims only concern which entry occupies which
  display position, not the locale text).
* Array.prototype.sort with the comparator of line 76 is required to be
  stable (ES2019); it is modelled by a stable insertion sort over the same
  comparator, sorting in place (the sorted list replaces the in-memory one).
* crypto.randomUUID is nondeterministic; the generated id is passed to the
  submit step as an explicit argument, with freshness as a hypothesis where a
  claim assumes it.
* JS String.prototype.trim is jsTrim below, over the ECMAScript whitespace
  set; the falsiness test !s on a string is the test s = "".
-/

/-- A diary entry as constructed by the submit handler (script.js 116-121). -/
structure Entry where
  id : String
  date : String
  focus : String
  text : String
deriving DecidableEq

/-- JSON structures, the possible results of JSON.parse. -/
inductive Json where
  | null
  | bool (b : Bool)
  | num (n : Int)
  | str (s : String)
  | arr (items : List Json)
  | obj (fields : List (String × Json))

/-- Whether a JSON value is an array (a sequence). -/
def Json.isArr : Json → Bool
  | .arr _ => true
  | _ => false

/-- JSON.stringify of one entry object. -/
def encodeEntry (e : Entry) : Json :=
  Json.obj [("id", Json.str e.id), ("date", Json.str e.date),
            ("focus", Json.str e.focus), ("text", Json.str e.text)]

/-- JSON.stringify of the full entry array. -/
def encodeEntries (l : List Entry) : Json :=
  Json.arr (l.map encodeEntry)

/-- A raw localStorage string, at the granularity JSON.parse distinguishes. -/
inductive Raw where
  | notJson (s : String)
  | isJson (j : Json)

/-- The localStorage cell under the fixed diary storage key
(diaryStorageKey, script.js line 51); none is an absent key. -/
abbrev Store := Option Raw

/-- Result of loadDiaryEntries: the returned value, the storage cell
afterwards, and whether console.warn was called. -/
structure LoadResult where
  value : Json
  store : Store
  warned : Bool

/-- loadDiaryEntries (script.js 53-62): raw = getItem(key); a falsy raw
(absent key, or the empty string) yields the empty array with storage
untouched; a parseable raw yields its parse; an unparseable raw logs a
warning, removes the key and yields the empty array. -/
def loadDiaryEntries (st : Store) : LoadResult :=
  match st with
  | none => ⟨Json.arr [], none, false⟩
  | some (Raw.notJson s) =>
      if s = "" then ⟨Json.arr [], some (Raw.notJson s), false⟩
      else ⟨Json.arr [], none, true⟩
  | some (Raw.isJson j) => ⟨j, some (Raw.isJson j), false⟩

/-- saveDiaryEntries (script.js 64-66): setItem(key, JSON.stringify(entries)),
overwriting whatever was stored before. -/
def saveDiaryEntries (entries : List Entry) : Store :=
  some (Raw.isJson (encodeEntries entries))

/-- The ECMAScript whitespace set trimmed by String.prototype.trim. -/
def isJsWhitespace (c : Char) : Bool :=
  let n := c.toNat
  decide (n = 0x09 ∨ n = 0x0A ∨ n = 0x0B ∨ n = 0x0C ∨ n = 0x0D ∨
    n = 0x20 ∨ n = 0xA0 ∨ n = 0x1680 ∨ (0x2000 ≤ n ∧ n ≤ 0x200A) ∨
    n = 0x2028 ∨ n = 0x2029 ∨ n = 0x202F ∨ n = 0x205F ∨ n = 0x3000 ∨
    n = 0xFEFF)

/-- Remove leading and trailing JS whitespace from a character list. -/
def jsTrimList (l : List Char) : List Char :=
  ((l.dropWhile isJsWhitespace).reverse.dropWhile isJsWhitespace).reverse

/-- JS String.prototype.trim. -/
def jsTrim (s : String) : String :=
  String.mk (jsTrimList s.data)

/-- The global replacement text.replace(/\n/g, the br tag) of line 89. -/
def replaceNewlines : List Char → List Char
  | [] => []
  | c :: cs =>
      if c = '\n' then '<' :: 'b' :: 'r' :: ' ' :: '/' :: '>' :: replaceNewlines cs
      else c :: replaceNewlines cs

/-- String form of the newline-to-br replacement. -/
def brNewlines (s : String) : String :=
  String.mk (replaceNewlines s.data)

/-- Gregorian leap year test, as used by Date for February lengths. -/
def isLeapYear (y : Nat) : Bool :=
  (y % 4 == 0 && y % 100 != 0) || y % 400 == 0

/-- Days in a month, as Date validates ISO calendar date strings. -/
def daysInMonth (y m : Nat) : Nat :=
  if m == 2 then (if isLeapYear y then 29 else 28)
  else if m == 4 || m == 6 || m == 9 || m == 11 then 30
  else 31

/-- Numeric value of new Date(s) for the ISO calendar-date strings
(yyyy-mm-dd) produced by the date input; none models an invalid date (NaN).
The value y*10000 + m*100 + d is order-isomorphic on this domain to the epoch
milliseconds Date would give, and the sort comparator below only inspects
signs of differences.  Date strings in any other format are treated as
invalid here. -/
def dateVal (s : String) : Option Nat :=
  match s.data with
  | [y1, y2, y3, y4, dashA, m1, m2, dashB, d1, d2] =>
      if y1.isDigit && y2.isDigit && y3.isDigit && y4.isDigit &&
         (dashA == '-') && m1.isDigit && m2.isDigit && (dashB == '-') &&
         d1.isDigit && d2.isDigit then
        let y := (y1.toNat - 48) * 1000 + (y2.toNat - 48) * 100 +
                 (y3.toNat - 48) * 10 + (y4.toNat - 48)
        let m := (m1.toNat - 48) * 10 + (m2.toNat - 48)
        let d := (d1.toNat - 48) * 10 + (d2.toNat - 48)
        if 1 ≤ m ∧ m ≤ 12 ∧ 1 ≤ d ∧ d ≤ daysInMonth y m then
          some (y * 10000 + m * 100 + d)
        else none
      else none
  | _ => none

/-- The comparator of line 76: (a, b) => new Date(b.date) - new Date(a.date).
If either date is invalid the subtraction is NaN, which the sort treats as
zero (ECMAScript coerces a NaN comparator result to +0). -/
def dateCmp (a b : Entry) : Int :=
  match dateVal b.date, dateVal a.date with
  | some vb, some va => (vb : Int) - (va : Int)
  | _, _ => 0

/-- Insert x into an already sorted run, after every element y the comparator
does not order strictly after x (dateCmp y x ≤ 0 keeps y first), so elements
comparing equal keep their original relative order. -/
def insertSorted (x : Entry) : List Entry → List Entry
  | [] => [x]
  | y :: ys => if dateCmp y x ≤ 0 then y :: insertSorted x ys else x :: y :: ys

/-- entries.sort of line 76: the ES2019-required stable sort with the date
comparator, realised as a stable insertion sort processing the array in
order. -/
def jsSortByDateDesc (l : List Entry) : List Entry :=
  l.foldl (fun acc x => insertSorted x acc) []

/-- One rendered diary li (lines 78-91): the date label (toLocaleDateString
of the entry date, abstracted to the date string), the focus span, the text
with newlines turned into br tags, and the remove button's
data-remove-entry id. -/
structure RenderedEntry where
  dateLabel : String
  focus : String
  textHtml : String
  removeId : String
deriving DecidableEq

/-- The li built for one entry. -/
def renderEntry (e : Entry) : RenderedEntry :=
  ⟨e.date, e.focus, brNewlines e.text, e.id⟩

/-- The diary list surface: the fixed empty-state placeholder li of line 71,
or the entry lis in display order. -/
inductive DiaryView where
  | emptyPlaceholder
  | items (xs : List RenderedEntry)
deriving DecidableEq

/-- The innerHTML renderDiary produces for a given entry array. -/
def renderView (l : List Entry) : DiaryView :=
  if l.length = 0 then DiaryView.emptyPlaceholder
  else DiaryView.items ((jsSortByDateDesc l).map renderEntry)

/-- The page state the diary code manipulates: the in-memory diaryEntries
array, the localStorage cell, and the rendered list. -/
structure DiaryState where
  entries : List Entry
  store : Store
  view : DiaryView

/-- renderDiary (script.js 68-94) as a state step: with an empty array it
only writes the placeholder; otherwise entries.sort(...) reorders the
in-memory array in place and the sorted entries are rendered. -/
def renderDiary (s : DiaryState) : DiaryState :=
  { s with
    entries := if s.entries.length = 0 then s.entries else jsSortByDateDesc s.entries,
    view := renderView s.entries }

/-- Outcome of a form submission: reportValidity was invoked, or an entry
was added. -/
inductive SubmitOutcome where
  | reportedInvalid
  | added
deriving DecidableEq

/-- The diary form submit handler (script.js 104-128): trim the text, reject
when the date or the trimmed text is empty (reportValidity, no mutation);
otherwise push the new entry, save, and render.  newId stands for the
crypto.randomUUID() result. -/
def submitStep (date focus entryText newId : String) (s : DiaryState) :
    DiaryState × SubmitOutcome :=
  let text := jsTrim entryText
  if date = "" ∨ text = "" then (s, SubmitOutcome.reportedInvalid)
  else
    let newEntries := s.entries ++ [⟨newId, date, focus, text⟩]
    (renderDiary { s with entries := newEntries, store := saveDiaryEntries newEntries },
     SubmitOutcome.added)

/-- JS Array.prototype.findIndex, with none for -1. -/
def findIndexAux (p : Entry → Bool) : List Entry → Nat → Option Nat
  | [], _ => none
  | e :: es, i => if p e then some i else findIndexAux p es (i + 1)

/-- First index whose entry satisfies p, as findIndex computes it. -/
def jsFindIndex (p : Entry → Bool) (l : List Entry) : Option Nat :=
  findIndexAux p l 0

/-- The diary list click handler for a remove button (script.js 141-152):
findIndex on the id; if found, splice the entry out, save, and render;
otherwise do nothing. -/
def removeStep (eid : String) (s : DiaryState) : DiaryState :=
  match jsFindIndex (fun e => e.id == eid) s.entries with
  | none => s
  | some i =>
      let newEntries := s.entries.eraseIdx i
      renderDiary { s with entries := newEntries, store := saveDiaryEntries newEntries }

/-- The clear button click handler (script.js 131-139): on a confirmed
prompt, splice out everything, save, and render; on decline, nothing. -/
def clearStep (confirmed : Bool) (s : DiaryState) : DiaryState :=
  if confirmed then
    renderDiary { s with entries := [], store := saveDiaryEntries [] }
  else s

/-- One user-initiated diary operation. -/
inductive DiaryOp where
  | add (date focus entryText newId : String)
  | remove (eid : String)
  | clear (confirmed : Bool)

/-- Run one operation's handler. -/
def applyOp : DiaryOp → DiaryState → DiaryState
  | DiaryOp.add d f t i, s => (submitStep d f t i s).1
  | DiaryOp.remove i, s => removeStep i s
  | DiaryOp.clear c, s => clearStep c s

/-- Run a sequence of operations in order. -/
def applyOps (ops : List DiaryOp) (s : DiaryState) : DiaryState :=
  ops.foldl (fun s op => applyOp op s) s

/-- The persisted value, when loaded, holds the same entries as the
in-memory array, up to order. -/
def storeMatches (s : DiaryState) : Prop :=
  ∃ l : List Entry, (loadDiaryEntries s.store).value = encodeEntries l ∧
    l.Perm s.entries

/-- The list is in render order: no element is ordered strictly after a
later one by the date comparator.  Every renderDiary output satisfies this,
so the in-memory array does at any point after the initial render. -/
def RenderSorted (l : List Entry) : Prop :=
  l.Pairwise (fun a b => dateCmp a b ≤ 0)

instance renderSortedDecidable (l : List Entry) : Decidable (RenderSorted l) :=
  decidable_of_iff (l.Pairwise (fun a b => dateCmp a b ≤ 0)) Iff.rfl

/-- The string neither starts nor ends with a JS whitespace character. -/
def noSurroundingWs (s : String) : Prop :=
  (∀ c, s.data.head? = some c → isJsWhitespace c = false) ∧
  (∀ c, s.data.getLast? = some c → isJsWhitespace c = false)

/-! Helper lemmas about the sort, the encoding, trimming and findIndex. -/

theorem insertSorted_perm (x : Entry) (l : List Entry) :
    (insertSorted x l).Perm (x :: l) := by
  induction l with
  | nil => exact List.Perm.refl _
  | cons y ys ih =>
      by_cases h : dateCmp y x ≤ 0
      · simp only [insertSorted, if_pos h]
        exact (ih.cons y).trans (List.Perm.swap x y ys)
      · simp only [insertSorted, if_neg h]
        exact List.Perm.refl _

theorem foldl_insert_perm (l acc : List Entry) :
    (l.foldl (fun a x => insertSorted x a) acc).Perm (acc ++ l) := by
  induction l generalizing acc with
  | nil => simp
  | cons x xs ih =>
      simp only [List.foldl_cons]
      refine (ih (insertSorted x acc)).trans ?_
      refine (List.Perm.append_right xs (insertSorted_perm x acc)).trans ?_
      exact List.perm_middle.symm

theorem jsSort_perm (l : List Entry) : (jsSortByDateDesc l).Perm l := by
  simpa using foldl_insert_perm l []

theorem dateCmp_flip_of_pos {x y : Entry} (h : 0 < dateCmp y x) :
    dateCmp x y ≤ 0 := by
  unfold dateCmp at h ⊢
  cases hx : dateVal x.date <;> cases hy : dateVal y.date <;>
    simp only [hx, hy] at h ⊢ <;> omega

theorem dateCmp_trans_of_pos {x y z : Entry} (h : 0 < dateCmp y x)
    (h2 : dateCmp y z ≤ 0) : dateCmp x z ≤ 0 := by
  unfold dateCmp at h h2 ⊢
  cases hx : dateVal x.date <;> cases hy : dateVal y.date <;>
    cases hz : dateVal z.date <;> simp only [hx, hy, hz] at h h2 ⊢ <;> omega

theorem insertSorted_pairwise {x : Entry} {l : List Entry}
    (h : l.Pairwise (fun a b => dateCmp a b ≤ 0)) :
    (insertSorted x l).Pairwise (fun a b => dateCmp a b ≤ 0) := by
  induction l with
  | nil => simp [insertSorted]
  | cons y ys ih =>
      rcases List.pairwise_cons.mp h with ⟨hy, hys⟩
      by_cases hc : dateCmp y x ≤ 0
      · simp only [insertSorted, if_pos hc]
        refine List.pairwise_cons.mpr ⟨?_, ih hys⟩
        intro z hz
        rcases List.mem_cons.mp ((insertSorted_perm x ys).mem_iff.mp hz) with
          hz | hz
        · exact hz ▸ hc
        · exact hy z hz
      · simp only [insertSorted, if_neg hc]
        push_neg at hc
        refine List.pairwise_cons.mpr ⟨?_, h⟩
        intro z hz
        rcases List.mem_cons.mp hz with hz | hz
        · exact hz ▸ dateCmp_flip_of_pos hc
        · exact dateCmp_trans_of_pos hc (hy z hz)

theorem foldl_insert_pairwise (l : List Entry) :
    ∀ acc, acc.Pairwise (fun a b => dateCmp a b ≤ 0) →
      (l.foldl (fun a x => insertSorted x a) acc).Pairwise
        (fun a b => dateCmp a b ≤ 0) := by
  induction l with
  | nil => intro acc hacc; simpa using hacc
  | cons x xs ih =>
      intro acc hacc
      simp only [List.foldl_cons]
      exact ih _ (insertSorted_pairwise hacc)

theorem jsSort_pairwise (l : List Entry) : RenderSorted (jsSortByDateDesc l) :=
  foldl_insert_pairwise l [] (List.Pairwise.nil)

theorem insertSorted_of_all_le {x : Entry} {l : List Entry}
    (h : ∀ a ∈ l, dateCmp a x ≤ 0) : insertSorted x l = l ++ [x] := by
  induction l with
  | nil => rfl
  | cons y ys ih =>
      have hy : dateCmp y x ≤ 0 := h y (List.mem_cons_self y ys)
      simp only [insertSorted, if_pos hy, List.cons_append]
      rw [ih (fun a ha => h a (List.mem_cons_of_mem y ha))]

theorem foldl_insert_of_sorted (l : List Entry) :
    ∀ acc, l.Pairwise (fun a b => dateCmp a b ≤ 0) →
      (∀ a ∈ acc, ∀ b ∈ l, dateCmp a b ≤ 0) →
      l.foldl (fun a x => insertSorted x a) acc = acc ++ l := by
  induction l with
  | nil => intro acc _ _; simp
  | cons x xs ih =>
      intro acc hl hcross
      rcases List.pairwise_cons.mp hl with ⟨hx, hxs⟩
      simp only [List.foldl_cons]
      rw [insertSorted_of_all_le
            (fun a ha => hcross a ha x (List.mem_cons_self x xs)),
          ih (acc ++ [x]) hxs ?_]
      · simp
      · intro a ha b hb
        rcases List.mem_append.mp ha with ha | ha
        · exact hcross a ha b (List.mem_cons_of_mem x hb)
        · rcases List.mem_singleton.mp ha with rfl
          exact hx b hb

theorem jsSort_of_sorted {l : List Entry} (h : RenderSorted l) :
    jsSortByDateDesc l = l := by
  simpa using foldl_insert_of_sorted l [] h (by simp)

theorem renderDiary_store (s : DiaryState) : (renderDiary s).store = s.store := rfl

theorem renderDiary_view (s : DiaryState) :
    (renderDiary s).view = renderView s.entries := rfl

theorem renderDiary_entries_perm (s : DiaryState) :
    ((renderDiary s).entries).Perm s.entries := by
  unfold renderDiary
  by_cases h : s.entries.length = 0
  · simp [h]
  · simpa [h] using jsSort_perm s.entries

theorem renderDiary_entries_of_sorted {s : DiaryState}
    (h : RenderSorted s.entries) : (renderDiary s).entries = s.entries := by
  unfold renderDiary
  by_cases hl : s.entries.length = 0 <;> simp [hl, jsSort_of_sorted h]

theorem encodeEntry_injective : Function.Injective encodeEntry := by
  intro a b h
  cases a; cases b
  simp only [encodeEntry, Json.obj.injEq, List.cons.injEq, Prod.mk.injEq,
    Json.str.injEq, true_and, and_true] at h
  simp_all

theorem encodeEntries_inj {l₁ l₂ : List Entry}
    (h : encodeEntries l₁ = encodeEntries l₂) : l₁ = l₂ := by
  simp only [encodeEntries, Json.arr.injEq] at h
  exact List.map_injective_iff.mpr encodeEntry_injective h

theorem load_save (l : List Entry) :
    loadDiaryEntries (saveDiaryEntries l) =
      ⟨encodeEntries l, saveDiaryEntries l, false⟩ := rfl

theorem findIndexAux_eq_none {p : Entry → Bool} {l : List Entry}
    (h : ∀ e ∈ l, p e = false) : ∀ i, findIndexAux p l i = none := by
  induction l with
  | nil => intro i; rfl
  | cons e es ih =>
      intro i
      have he : p e = false := h e (List.mem_cons_self e es)
      simp only [findIndexAux, he, Bool.false_eq_true, if_false]
      exact ih (fun x hx => h x (List.mem_cons_of_mem e hx)) (i + 1)

theorem jsFindIndex_eq_none {p : Entry → Bool} {l : List Entry}
    (h : ∀ e ∈ l, p e = false) : jsFindIndex p l = none :=
  findIndexAux_eq_none h 0

theorem dropWhile_head?_not {p : Char → Bool} {l : List Char} {c : Char}
    (h : (l.dropWhile p).head? = some c) : p c = false := by
  induction l with
  | nil => simp [List.dropWhile] at h
  | cons x xs ih =>
      by_cases hx : p x
      · rw [List.dropWhile_cons_of_pos hx] at h
        exact ih h
      · rw [List.dropWhile_cons_of_neg hx] at h
        simp only [List.head?_cons, Option.some.injEq] at h
        subst h
        exact Bool.eq_false_iff.mpr hx

theorem dropWhile_getLast? {p : Char → Bool} {l : List Char}
    (h : l.dropWhile p ≠ []) : (l.dropWhile p).getLast? = l.getLast? := by
  induction l with
  | nil => simp [List.dropWhile] at h
  | cons x xs ih =>
      by_cases hx : p x
      · rw [List.dropWhile_cons_of_pos hx] at h ⊢
        cases xs with
        | nil => simp [List.dropWhile] at h
        | cons y ys =>
            rw [ih h, List.getLast?_cons_cons]
      · rw [List.dropWhile_cons_of_neg hx]

theorem jsTrim_noSurroundingWs (s : String) : noSurroundingWs (jsTrim s) := by
  constructor
  · intro c hc
    have hdata : (jsTrim s).data = jsTrimList s.data := rfl
    rw [hdata] at hc
    unfold jsTrimList at hc
    rw [List.head?_reverse] at hc
    set m := ((s.data.dropWhile isJsWhitespace).reverse.dropWhile isJsWhitespace)
      with hm
    have hmne : m ≠ [] := by
      intro hnil
      rw [hnil] at hc
      simp at hc
    rw [dropWhile_getLast? (by rw [← hm]; exact hmne)] at hc
    rw [List.getLast?_reverse] at hc
    exact dropWhile_head?_not hc
  · intro c hc
    have hdata : (jsTrim s).data = jsTrimList s.data := rfl
    rw [hdata] at hc
    unfold jsTrimList at hc
    rw [List.getLast?_reverse] at hc
    exact dropWhile_head?_not hc

theorem submitStep_valid {date focus textRaw newId : String} {s : DiaryState}
    (hd : date ≠ "") (ht : jsTrim textRaw ≠ "") :
    submitStep date focus textRaw newId s =
      (renderDiary
        { s with
          entries := s.entries ++ [⟨newId, date, focus, jsTrim textRaw⟩],
          store := saveDiaryEntries
            (s.entries ++ [⟨newId, date, focus, jsTrim textRaw⟩]) },
       SubmitOutcome.added) := by
  simp [submitStep, hd, ht]

theorem submitStep_added {date focus textRaw newId : String} {s : DiaryState}
    (h : (submitStep date focus textRaw newId s).2 = SubmitOutcome.added) :
    ¬(date = "" ∨ jsTrim textRaw = "") := by
  intro hc
  rcases hc with hc | hc <;> simp [submitStep, hc] at h

/-! Claim theorems. -/

/-- C2 (amended): when the raw value under the diary key is present,
non-empty, and fails to parse, loading logs a warning, deletes the stored
key, and returns the empty sequence, and a second load immediately
afterwards also returns the empty sequence; when the key is absent, loading
returns the empty sequence.  (A present but empty-string raw value also
fails to parse, yet the code's falsiness test short-circuits before the
parse: it returns the empty sequence without a warning and leaves the key in
place — see the counterexample.) -/
theorem diary_load_corrupt_self_heals (sraw : String) (h : sraw ≠ "") :
    loadDiaryEntries (some (Raw.notJson sraw)) = ⟨Json.arr [], none, true⟩ ∧
    loadDiaryEntries ((loadDiaryEntries (some (Raw.notJson sraw))).store) =
      ⟨Json.arr [], none, false⟩ ∧
    loadDiaryEntries none = ⟨Json.arr [], none, false⟩ := by
  refine ⟨?_, ?_, rfl⟩ <;> simp [loadDiaryEntries, h]

/-- Witness for C2 at the concrete unparseable stored text "oops". -/
theorem diary_load_corrupt_self_heals_witness :
    loadDiaryEntries (some (Raw.notJson "oops")) = ⟨Json.arr [], none, true⟩ ∧
    loadDiaryEntries ((loadDiaryEntries (some (Raw.notJson "oops"))).store) =
      ⟨Json.arr [], none, false⟩ ∧
    loadDiaryEntries none = ⟨Json.arr [], none, false⟩ :=
  diary_load_corrupt_self_heals "oops" (by decide)

/-- C2 counterexample: the empty string is a present stored value that
JSON.parse rejects, yet load neither warns nor deletes the key (the falsy
test on the raw string returns the empty array first). -/
theorem diary_load_empty_string_counterexample :
    (loadDiaryEntries (some (Raw.notJson ""))).warned = false ∧
    (loadDiaryEntries (some (Raw.notJson ""))).store = some (Raw.notJson "") :=
  ⟨rfl, rfl⟩

/-- C3 (amended): load never fails the caller: for every raw stored value it
returns a value, namely the empty sequence when the key is absent, empty, or
unparseable, and otherwise exactly the parsed structure; the result is a
sequence whenever the stored value was written by save, but a parseable
non-array text yields that non-sequence value instead. -/
theorem diary_load_total :
    (∀ st : Store,
      (loadDiaryEntries st).value = Json.arr [] ∨
        ∃ j, st = some (Raw.isJson j) ∧ (loadDiaryEntries st).value = j) ∧
    (∀ l : List Entry,
      (loadDiaryEntries (saveDiaryEntries l)).value = encodeEntries l) := by
  constructor
  · intro st
    match st with
    | none => exact Or.inl rfl
    | some (Raw.notJson s) =>
        left
        by_cases h : s = "" <;> simp [loadDiaryEntries, h]
    | some (Raw.isJson j) => exact Or.inr ⟨j, rfl, rfl⟩
  · intro l
    rfl

/-- C3 counterexample: the stored text 5 is parseable, and load returns the
number 5, which is not a sequence of entries. -/
theorem diary_load_nonsequence_counterexample :
    (loadDiaryEntries (some (Raw.isJson (Json.num 5)))).value = Json.num 5 ∧
    ((loadDiaryEntries (some (Raw.isJson (Json.num 5)))).value).isArr = false :=
  ⟨rfl, rfl⟩

/-- C4: a submission whose date is empty or whose text trims to the empty
string leaves the whole state (in-memory entries, persisted value, and
display) unchanged and reports the failure through the form's native
validity UI; no partial entry is created. -/
theorem diary_add_invalid_noop (date focus textRaw newId : String)
    (s : DiaryState) (h : date = "" ∨ jsTrim textRaw = "") :
    submitStep date focus textRaw newId s = (s, SubmitOutcome.reportedInvalid) := by
  rcases h with h | h <;> simp [submitStep, h]

/-- Witness for C4: whitespace-only text on a concrete state. -/
theorem diary_add_invalid_noop_witness :
    submitStep "2024-05-01" "leash training" "   " "id-1"
        ⟨[⟨"id-0", "2024-04-01", "recall", "ok"⟩], none,
          DiaryView.emptyPlaceholder⟩ =
      (⟨[⟨"id-0", "2024-04-01", "recall", "ok"⟩], none,
          DiaryView.emptyPlaceholder⟩, SubmitOutcome.reportedInvalid) :=
  diary_add_invalid_noop "2024-05-01" "leash training" "   " "id-1" _
    (Or.inr (by decide))

/-- C7: a declined confirmation leaves the state unchanged; a confirmed
clear empties the collection, persists the empty collection, and displays
the fixed empty-state placeholder. -/
theorem diary_clear_spec (s : DiaryState) :
    clearStep false s = s ∧
    (clearStep true s).entries = [] ∧
    (clearStep true s).store = saveDiaryEntries [] ∧
    (clearStep true s).view = DiaryView.emptyPlaceholder :=
  ⟨rfl, rfl, rfl, rfl⟩

theorem submitStep_invalid {date focus textRaw newId : String}
    {s : DiaryState} (h : date = "" ∨ jsTrim textRaw = "") :
    submitStep date focus textRaw newId s = (s, SubmitOutcome.reportedInvalid) := by
  rcases h with h | h <;> simp [submitStep, h]

theorem applyOp_storeMatches (op : DiaryOp) (s : DiaryState)
    (h : storeMatches s) : storeMatches (applyOp op s) := by
  cases op with
  | add d f t i =>
      by_cases hv : d = "" ∨ jsTrim t = ""
      · simpa [applyOp, submitStep_invalid hv] using h
      · push_neg at hv
        simp only [applyOp, submitStep_valid hv.1 hv.2]
        exact ⟨_, rfl,
          (renderDiary_entries_perm
            { s with
              entries := s.entries ++ [⟨i, d, f, jsTrim t⟩],
              store := saveDiaryEntries
                (s.entries ++ [⟨i, d, f, jsTrim t⟩]) }).symm⟩
  | remove eid =>
      cases hidx : jsFindIndex (fun e => e.id == eid) s.entries with
      | none => simpa [applyOp, removeStep, hidx] using h
      | some idx =>
          simp only [applyOp, removeStep, hidx]
          exact ⟨_, rfl,
            (renderDiary_entries_perm
              { s with
                entries := s.entries.eraseIdx idx,
                store := saveDiaryEntries (s.entries.eraseIdx idx) }).symm⟩
  | clear c =>
      cases c with
      | false => simpa [applyOp, clearStep] using h
      | true =>
          simp only [applyOp, clearStep, if_true]
          exact ⟨[], rfl, List.Perm.nil⟩

/-- C1 (amended): starting from any state in which the persisted value loads
to the in-memory collection up to order, after every sequence of
add/remove/clear operations the persisted value, when loaded, still holds
exactly the same entries as the in-memory collection up to order (each
mutating handler saves the collection and only then renders, and the render
re-sorts the in-memory array in place, so the persisted order can lag the
in-memory order — see the counterexample); and loading immediately after
save(X) yields exactly X. -/
theorem diary_persist_matches_memory (ops : List DiaryOp) (s : DiaryState)
    (h : storeMatches s) :
    storeMatches (applyOps ops s) ∧
    ∀ l : List Entry,
      (loadDiaryEntries (saveDiaryEntries l)).value = encodeEntries l := by
  constructor
  · induction ops generalizing s with
    | nil => exact h
    | cons op ops ih => exact ih _ (applyOp_storeMatches op s h)
  · intro l
    rfl

/-- Witness for C1: a concrete four-operation run from the empty loaded
state, plus the concrete save/load round trip. -/
theorem diary_persist_matches_memory_witness :
    storeMatches (applyOps
      [DiaryOp.add "2024-01-01" "recall" "sit" "id-1",
       DiaryOp.add "2024-03-05" "leash" "walk" "id-2",
       DiaryOp.remove "id-1",
       DiaryOp.clear true]
      ⟨[], none, DiaryView.emptyPlaceholder⟩) ∧
    (loadDiaryEntries (saveDiaryEntries
        [⟨"id-1", "2024-01-01", "recall", "sit"⟩])).value =
      encodeEntries [⟨"id-1", "2024-01-01", "recall", "sit"⟩] :=
  ⟨(diary_persist_matches_memory
      [DiaryOp.add "2024-01-01" "recall" "sit" "id-1",
       DiaryOp.add "2024-03-05" "leash" "walk" "id-2",
       DiaryOp.remove "id-1",
       DiaryOp.clear true]
      ⟨[], none, DiaryView.emptyPlaceholder⟩
      ⟨[], rfl, List.Perm.nil⟩).1,
   (diary_persist_matches_memory [] ⟨[], none, DiaryView.emptyPlaceholder⟩
      ⟨[], rfl, List.Perm.nil⟩).2
     [⟨"id-1", "2024-01-01", "recall", "sit"⟩]⟩

/-- C1 counterexample: from the empty loaded state, adding an entry dated
2024-01-01 and then one dated 2024-03-05 leaves the persisted value in
insertion order while the post-render in-memory collection is in descending
date order, so loading does not yield exactly the in-memory collection. -/
theorem diary_persist_order_counterexample :
    ¬((loadDiaryEntries
        (applyOps
          [DiaryOp.add "2024-01-01" "recall" "sit" "id-1",
           DiaryOp.add "2024-03-05" "leash" "walk" "id-2"]
          ⟨[], none, DiaryView.emptyPlaceholder⟩).store).value =
      encodeEntries
        (applyOps
          [DiaryOp.add "2024-01-01" "recall" "sit" "id-1",
           DiaryOp.add "2024-03-05" "leash" "walk" "id-2"]
          ⟨[], none, DiaryView.emptyPlaceholder⟩).entries) := by
  intro h
  have h2 : encodeEntries
      [⟨"id-1", "2024-01-01", "recall", "sit"⟩,
       ⟨"id-2", "2024-03-05", "leash", "walk"⟩] =
    encodeEntries
      [⟨"id-2", "2024-03-05", "leash", "walk"⟩,
       ⟨"id-1", "2024-01-01", "recall", "sit"⟩] := h
  exact absurd (encodeEntries_inj h2) (by decide)

/-- C5: a submission with a non-empty date and text that trims non-empty
adds the outcome, grows the collection by exactly one, puts the new entry
(with the submitted date, focus, and trimmed text, and the generated id)
into the collection, and, when the generated id is fresh, no other entry of
the resulting collection carries that id. -/
theorem diary_add_valid_appends (date focus textRaw newId : String)
    (s : DiaryState) (hd : date ≠ "") (ht : jsTrim textRaw ≠ "")
    (hfresh : newId ∉ s.entries.map Entry.id) :
    (submitStep date focus textRaw newId s).2 = SubmitOutcome.added ∧
    (submitStep date focus textRaw newId s).1.entries.length =
      s.entries.length + 1 ∧
    (⟨newId, date, focus, jsTrim textRaw⟩ : Entry) ∈
      (submitStep date focus textRaw newId s).1.entries ∧
    ∀ e ∈ (submitStep date focus textRaw newId s).1.entries,
      e.id = newId → e = ⟨newId, date, focus, jsTrim textRaw⟩ := by
  rw [submitStep_valid hd ht]
  have hp := renderDiary_entries_perm
    { s with
      entries := s.entries ++ [⟨newId, date, focus, jsTrim textRaw⟩],
      store := saveDiaryEntries
        (s.entries ++ [⟨newId, date, focus, jsTrim textRaw⟩]) }
  refine ⟨rfl, ?_, ?_, ?_⟩
  · rw [hp.length_eq]
    simp
  · exact hp.mem_iff.mpr (by simp)
  · intro e he hid
    have he2 := hp.mem_iff.mp he
    rcases List.mem_append.mp he2 with he2 | he2
    · exact absurd (hid ▸ List.mem_map_of_mem Entry.id he2) hfresh
    · simpa using he2

/-- Witness for C5: the spec's concrete submission on a one-entry state. -/
theorem diary_add_valid_appends_witness :
    (submitStep "2024-05-01" "leash training" "Walked nicely" "id-9"
        ⟨[⟨"id-0", "2024-04-01", "recall", "ok"⟩], none,
          DiaryView.emptyPlaceholder⟩).2 = SubmitOutcome.added ∧
    (submitStep "2024-05-01" "leash training" "Walked nicely" "id-9"
        ⟨[⟨"id-0", "2024-04-01", "recall", "ok"⟩], none,
          DiaryView.emptyPlaceholder⟩).1.entries.length = 2 ∧
    (⟨"id-9", "2024-05-01", "leash training", "Walked nicely"⟩ : Entry) ∈
      (submitStep "2024-05-01" "leash training" "Walked nicely" "id-9"
        ⟨[⟨"id-0", "2024-04-01", "recall", "ok"⟩], none,
          DiaryView.emptyPlaceholder⟩).1.entries :=
  ⟨(diary_add_valid_appends "2024-05-01" "leash training" "Walked nicely"
      "id-9" ⟨[⟨"id-0", "2024-04-01", "recall", "ok"⟩], none,
        DiaryView.emptyPlaceholder⟩ (by decide) (by decide) (by decide)).1,
   (diary_add_valid_appends "2024-05-01" "leash training" "Walked nicely"
      "id-9" ⟨[⟨"id-0", "2024-04-01", "recall", "ok"⟩], none,
        DiaryView.emptyPlaceholder⟩ (by decide) (by decide) (by decide)).2.1,
   (diary_add_valid_appends "2024-05-01" "leash training" "Walked nicely"
      "id-9" ⟨[⟨"id-0", "2024-04-01", "recall", "ok"⟩], none,
        DiaryView.emptyPlaceholder⟩ (by decide) (by decide) (by decide)).2.2.1⟩

/-- C6: removing an id held by no entry leaves the state (collection,
persisted value, display) exactly unchanged; removing a present id persists
the collection with exactly the first entry carrying that id spliced out,
re-renders the display from it, and leaves the in-memory collection equal to
it up to the render reorder — exactly equal whenever the collection was
already in render order, as it is after any previous render. -/
theorem diary_remove_spec :
    (∀ (eid : String) (s : DiaryState),
      (∀ e ∈ s.entries, e.id ≠ eid) → removeStep eid s = s) ∧
    (∀ (eid : String) (s : DiaryState) (i : Nat),
      jsFindIndex (fun e => e.id == eid) s.entries = some i →
      (removeStep eid s).store = saveDiaryEntries (s.entries.eraseIdx i) ∧
      ((removeStep eid s).entries).Perm (s.entries.eraseIdx i) ∧
      (RenderSorted s.entries →
        (removeStep eid s).entries = s.entries.eraseIdx i) ∧
      (removeStep eid s).view = renderView (s.entries.eraseIdx i)) := by
  constructor
  · intro eid s h
    have hnone : jsFindIndex (fun e => e.id == eid) s.entries = none :=
      jsFindIndex_eq_none (fun e he => by simpa using h e he)
    simp [removeStep, hnone]
  · intro eid s i hidx
    simp only [removeStep, hidx]
    refine ⟨rfl, ?_, ?_, rfl⟩
    · exact renderDiary_entries_perm
        { s with
          entries := s.entries.eraseIdx i,
          store := saveDiaryEntries (s.entries.eraseIdx i) }
    · intro hsorted
      exact renderDiary_entries_of_sorted
        (List.Pairwise.sublist (List.eraseIdx_sublist s.entries i) hsorted)

/-- Witness for C6: a missing id is a no-op and a present id is spliced out,
on a concrete two-entry state in render order. -/
theorem diary_remove_spec_witness :
    removeStep "zz"
        ⟨[⟨"i1", "2024-03-05", "leash", "walk"⟩,
          ⟨"i2", "2024-01-01", "recall", "sit"⟩], none,
          DiaryView.emptyPlaceholder⟩ =
      ⟨[⟨"i1", "2024-03-05", "leash", "walk"⟩,
        ⟨"i2", "2024-01-01", "recall", "sit"⟩], none,
        DiaryView.emptyPlaceholder⟩ ∧
    (removeStep "i1"
        ⟨[⟨"i1", "2024-03-05", "leash", "walk"⟩,
          ⟨"i2", "2024-01-01", "recall", "sit"⟩], none,
          DiaryView.emptyPlaceholder⟩).store =
      saveDiaryEntries [⟨"i2", "2024-01-01", "recall", "sit"⟩] ∧
    (removeStep "i1"
        ⟨[⟨"i1", "2024-03-05", "leash", "walk"⟩,
          ⟨"i2", "2024-01-01", "recall", "sit"⟩], none,
          DiaryView.emptyPlaceholder⟩).entries =
      [⟨"i2", "2024-01-01", "recall", "sit"⟩] :=
  ⟨diary_remove_spec.1 "zz"
      ⟨[⟨"i1", "2024-03-05", "leash", "walk"⟩,
        ⟨"i2", "2024-01-01", "recall", "sit"⟩], none,
        DiaryView.emptyPlaceholder⟩ (by decide),
   (diary_remove_spec.2 "i1"
      ⟨[⟨"i1", "2024-03-05", "leash", "walk"⟩,
        ⟨"i2", "2024-01-01", "recall", "sit"⟩], none,
        DiaryView.emptyPlaceholder⟩ 0 (by decide)).1,
   (diary_remove_spec.2 "i1"
      ⟨[⟨"i1", "2024-03-05", "leash", "walk"⟩,
        ⟨"i2", "2024-01-01", "recall", "sit"⟩], none,
        DiaryView.emptyPlaceholder⟩ 0 (by decide)).2.2.1 (by decide)⟩

/-- C8: rendering a non-empty collection whose dates are all valid displays
the entries sorted descending by date (the displayed list is the stable sort
of the collection under the date comparator, a permutation of the collection
that is pairwise descending on the date values); in particular the dates
2024-01-01, 2024-03-05, 2024-02-10 are displayed in the order 2024-03-05,
2024-02-10, 2024-01-01. -/
theorem diary_render_sorted_desc :
    (∀ s : DiaryState, s.entries ≠ [] →
      (∀ e ∈ s.entries, (dateVal e.date).isSome = true) →
      (renderDiary s).view =
        DiaryView.items ((jsSortByDateDesc s.entries).map renderEntry) ∧
      (jsSortByDateDesc s.entries).Perm s.entries ∧
      (jsSortByDateDesc s.entries).Pairwise
        (fun a b => (dateVal b.date).getD 0 ≤ (dateVal a.date).getD 0)) ∧
    (renderDiary ⟨[⟨"i1", "2024-01-01", "f1", "t1"⟩,
                   ⟨"i2", "2024-03-05", "f2", "t2"⟩,
                   ⟨"i3", "2024-02-10", "f3", "t3"⟩], none,
                  DiaryView.emptyPlaceholder⟩).view =
      DiaryView.items [renderEntry ⟨"i2", "2024-03-05", "f2", "t2"⟩,
                       renderEntry ⟨"i3", "2024-02-10", "f3", "t3"⟩,
                       renderEntry ⟨"i1", "2024-01-01", "f1", "t1"⟩] := by
  constructor
  · intro s hne hvalid
    refine ⟨?_, jsSort_perm s.entries, ?_⟩
    · rw [renderDiary_view, renderView,
        if_neg (by simpa [List.length_eq_zero] using hne)]
    · have hp := jsSort_pairwise s.entries
      have hmem : ∀ e ∈ jsSortByDateDesc s.entries,
          (dateVal e.date).isSome = true :=
        fun e he => hvalid e ((jsSort_perm s.entries).mem_iff.mp he)
      refine List.Pairwise.imp_of_mem ?_ hp
      intro a b ha hb hab
      have hva := hmem a ha
      have hvb := hmem b hb
      cases hda : dateVal a.date with
      | none => rw [hda] at hva; simp at hva
      | some va =>
          cases hdb : dateVal b.date with
          | none => rw [hdb] at hvb; simp at hvb
          | some vb =>
              simp only [Option.getD_some]
              simp only [dateCmp, hda, hdb] at hab
              omega
  · rfl

/-- Witness for C8 at the spec's concrete three dates. -/
theorem diary_render_sorted_desc_witness :
    (renderDiary ⟨[⟨"i1", "2024-01-01", "f1", "t1"⟩,
                   ⟨"i2", "2024-03-05", "f2", "t2"⟩,
                   ⟨"i3", "2024-02-10", "f3", "t3"⟩], none,
                  DiaryView.emptyPlaceholder⟩).view =
      DiaryView.items
        ((jsSortByDateDesc
            [⟨"i1", "2024-01-01", "f1", "t1"⟩,
             ⟨"i2", "2024-03-05", "f2", "t2"⟩,
             ⟨"i3", "2024-02-10", "f3", "t3"⟩]).map renderEntry) :=
  (diary_render_sorted_desc.1
    ⟨[⟨"i1", "2024-01-01", "f1", "t1"⟩,
      ⟨"i2", "2024-03-05", "f2", "t2"⟩,
      ⟨"i3", "2024-02-10", "f3", "t3"⟩], none, DiaryView.emptyPlaceholder⟩
    (by decide) (by decide)).1

/-- C9 (amended): render performs no persistence write and neither adds nor
removes entries, but it is not a pure projection of an unchanged collection:
it reorders the in-memory array in place (entries.sort) into descending date
order; only when the collection is already in render order — as it is after
any previous render — does it leave the collection unchanged. -/
theorem diary_render_effects (s : DiaryState) :
    (renderDiary s).store = s.store ∧
    ((renderDiary s).entries).Perm s.entries ∧
    (RenderSorted s.entries → (renderDiary s).entries = s.entries) :=
  ⟨rfl, renderDiary_entries_perm s,
   fun h => renderDiary_entries_of_sorted h⟩

/-- Witness for C9 on a concrete state already in render order. -/
theorem diary_render_effects_witness :
    (renderDiary ⟨[⟨"i2", "2024-03-05", "f", "t"⟩,
                   ⟨"i1", "2024-01-01", "f", "t"⟩], none,
                  DiaryView.emptyPlaceholder⟩).store = none ∧
    (renderDiary ⟨[⟨"i2", "2024-03-05", "f", "t"⟩,
                   ⟨"i1", "2024-01-01", "f", "t"⟩], none,
                  DiaryView.emptyPlaceholder⟩).entries =
      [⟨"i2", "2024-03-05", "f", "t"⟩, ⟨"i1", "2024-01-01", "f", "t"⟩] :=
  ⟨(diary_render_effects
      ⟨[⟨"i2", "2024-03-05", "f", "t"⟩, ⟨"i1", "2024-01-01", "f", "t"⟩],
        none, DiaryView.emptyPlaceholder⟩).1,
   (diary_render_effects
      ⟨[⟨"i2", "2024-03-05", "f", "t"⟩, ⟨"i1", "2024-01-01", "f", "t"⟩],
        none, DiaryView.emptyPlaceholder⟩).2.2 (by decide)⟩

/-- C9 counterexample: rendering a collection whose two entries are in
ascending date order reorders the in-memory collection, so render does not
leave the collection's order unchanged. -/
theorem diary_render_mutates_counterexample :
    (renderDiary ⟨[⟨"i1", "2024-01-01", "f", "t"⟩,
                   ⟨"i2", "2024-03-05", "f", "t"⟩], none,
                  DiaryView.emptyPlaceholder⟩).entries ≠
      [⟨"i1", "2024-01-01", "f", "t"⟩, ⟨"i2", "2024-03-05", "f", "t"⟩] := by
  decide

/-- C10: a successful submission stores the JS trim of the submitted text:
the resulting collection is, up to the render reorder, the previous one plus
a new entry whose text is exactly the trimmed input, and a trimmed string
neither starts nor ends with whitespace. -/
theorem diary_add_text_trimmed (date focus textRaw newId : String)
    (s : DiaryState)
    (h : (submitStep date focus textRaw newId s).2 = SubmitOutcome.added) :
    ((submitStep date focus textRaw newId s).1.entries).Perm
      (s.entries ++ [⟨newId, date, focus, jsTrim textRaw⟩]) ∧
    noSurroundingWs (jsTrim textRaw) := by
  have hv := submitStep_added h
  push_neg at hv
  rw [submitStep_valid hv.1 hv.2]
  exact ⟨renderDiary_entries_perm
    { s with
      entries := s.entries ++ [⟨newId, date, focus, jsTrim textRaw⟩],
      store := saveDiaryEntries
        (s.entries ++ [⟨newId, date, focus, jsTrim textRaw⟩]) },
    jsTrim_noSurroundingWs textRaw⟩

/-- Witness for C10: text with surrounding whitespace is stored trimmed. -/
theorem diary_add_text_trimmed_witness :
    ((submitStep "2024-05-01" "leash training" "  Walked nicely " "id-7"
        ⟨[], none, DiaryView.emptyPlaceholder⟩).1.entries).Perm
      [⟨"id-7", "2024-05-01", "leash training", "Walked nicely"⟩] :=
  (diary_add_text_trimmed "2024-05-01" "leash training" "  Walked nicely "
    "id-7" ⟨[], none, DiaryView.emptyPlaceholder⟩ (by decide)).1
